import Mathlib

/-!
Shallow embedding of the wordle-solver repository (src/wordle-solver.py and
src/solver.py) and verification of the specification's claims about it.

Words are 5-character tokens, modelled as lists of characters.  Feedback
patterns are lists of the characters `r` (gray), `y` (yellow), `g` (green),
as in the source.  Dictionaries (Python `dict`) are modelled as association
lists in insertion order, Python `set`s as lists with membership-guarded
insertion, and floating point entropy scores as real numbers.
-/

namespace WordleSolver

abbrev Word := List Char

abbrev Pattern := List Char

/-- Decrement the multiset count of one character, as Python's
`target_chars[c] -= 1` on a `Counter`. -/
def decr (tc : Char → ℤ) (c : Char) : Char → ℤ :=
  fun x => if x = c then tc x - 1 else tc x

/-- First pass of `evaluate_guess` (src/wordle-solver.py lines 120-123):
for each index `i`, if `guess[i] == target[i]` mark position `i` green and
decrement that letter's count drawn from the target's multiset.  The loop
over `range(5)` is explicit recursion over the index list; the loop state is
the result list and the remaining-count function. -/
def pass1 (guess target : Word) : List ℕ → List Char → (Char → ℤ) → List Char × (Char → ℤ)
  | [], result, tc => (result, tc)
  | i :: is, result, tc =>
    if guess.getD i '?' = target.getD i '?' then
      pass1 guess target is (result.set i 'g') (decr tc (guess.getD i '?'))
    else
      pass1 guess target is result tc

/-- Second pass of `evaluate_guess` (src/wordle-solver.py lines 126-129):
for each index `i` still gray, if `guess[i]` is a key of the target counter
(a letter of the target) with remaining count `> 0`, mark it yellow and
decrement that letter's count. -/
def pass2 (guess target : Word) : List ℕ → List Char → (Char → ℤ) → List Char
  | [], result, _ => result
  | i :: is, result, tc =>
    if result.getD i '?' = 'r' ∧ guess.getD i '?' ∈ target ∧ tc (guess.getD i '?') > 0 then
      pass2 guess target is (result.set i 'y') (decr tc (guess.getD i '?'))
    else
      pass2 guess target is result tc

/-- `evaluate_guess` (src/wordle-solver.py lines 108-131, identical in
src/solver.py): the two-pass evaluation of a guess against a target,
returning a 5-symbol pattern of `r`/`y`/`g` marks.  `result` starts as five
gray marks and `target_chars` as the target's letter multiset. -/
def evaluate_guess (guess target : Word) : Pattern :=
  let result := List.replicate 5 'r'
  let target_chars : Char → ℤ := fun c => (target.count c : ℤ)
  let p1 := pass1 guess target (List.range 5) result target_chars
  pass2 guess target (List.range 5) p1.1 p1.2

/-- `filter_words` (src/wordle-solver.py lines 133-135, identical in
src/solver.py): keep the possible words whose evaluation against the guess
equals the observed pattern. -/
def filter_words (guess : Word) (pattern : Pattern) (possible_words : List Word) : List Word :=
  possible_words.filter (fun word => evaluate_guess guess word = pattern)

example : evaluate_guess ['c','r','a','n','e'] ['s','l','a','t','e'] = ['r','r','g','r','g'] := by
  decide

example : evaluate_guess ['c','r','a','n','e'] ['t','r','a','c','e'] = ['y','g','g','r','g'] := by
  decide

example : evaluate_guess ['a','l','l','e','e'] ['l','a','b','e','l'] = ['y','y','y','g','r'] := by
  decide

example : evaluate_guess ['c','r','a','n','e'] ['c','r','a','n','e'] = ['g','g','g','g','g'] := by
  decide

/-- `calculate_entropy` (src/wordle-solver.py lines 137-156, identical in
src/solver.py): Shannon entropy of the pattern distribution of `word`
against the reference list.  `pattern_counts` is a dict keyed by pattern in
first-insertion order; its value at a pattern is the number of reference
words producing that pattern, and the loop over the dict values is a fold
over the key list. -/
noncomputable def calculate_entropy (word : Word) (possible_words : List Word) : ℝ :=
  let patterns := possible_words.map (fun possible_word => evaluate_guess word possible_word)
  let keys := patterns.foldl (fun acc p => if p ∈ acc then acc else acc ++ [p]) []
  let total_words := possible_words.length
  keys.foldl (fun entropy p =>
    let probability : ℝ := (patterns.count p : ℝ) / (total_words : ℝ)
    entropy - probability * Real.logb 2 probability) 0

/-- `get_candidate_words` (src/wordle-solver.py lines 160-176): the
single-possibility shortcut returns that word with an empty pool; otherwise
the pool is the possible words (when forcing) or the full dictionary, with
the excluded words filtered out when the excluded set is nonempty. -/
def get_candidate_words (possible_words all_words excluded_words : List Word)
    (force_possible : Bool) : Option Word × List Word :=
  if possible_words.length = 1 then (some (possible_words.getD 0 []), [])
  else
    let words_to_check := if force_possible then possible_words else all_words
    let words_to_check2 :=
      if excluded_words ≠ [] then
        words_to_check.filter (fun w => w ∉ excluded_words)
      else words_to_check
    (none, words_to_check2)

/-- `calculate_word_entropy_scores` (src/wordle-solver.py lines 178-190,
solver.py lines 160-172): the loop filling the `word_scores` dict, one
entropy score per pool word, modelled as an association list in insertion
order. -/
noncomputable def calculate_word_entropy_scores (words_to_check possible_words : List Word) :
    List (Word × ℝ) :=
  match words_to_check with
  | [] => []
  | word :: rest =>
    (word, calculate_entropy word possible_words) :: calculate_word_entropy_scores rest possible_words

/-- Descending-by-score comparator for Python's
`sorted(..., key=lambda x: x[1], reverse=True)` and
`sort(key=lambda x: x[1], reverse=True)`. -/
noncomputable def scoreDescBool (a b : Word × ℝ) : Bool :=
  @decide (b.2 ≤ a.2) (Classical.propDecidable _)

/-- Stable descending sort by score, as Python's stable `sorted`/`sort`
with `reverse=True` on `(word, score)` pairs. -/
noncomputable def sort_desc (l : List (Word × ℝ)) : List (Word × ℝ) :=
  l.mergeSort scoreDescBool

/-- `max_rank = max(word_ranks.values()) if word_ranks else 1`
(src/wordle-solver.py line 194). -/
def max_rank_of (word_ranks : List (Word × ℕ)) : ℕ :=
  if word_ranks = [] then 1 else (word_ranks.map Prod.snd).foldl Nat.max 0

/-- The loop body of `apply_bonuses_to_top_candidates`
(src/wordle-solver.py lines 197-213) accumulating `final_scores`: the
frequency bonus `(1 - rank/max_rank) * 0.5` is added when the ranking is
nonempty, the word is ranked and at most 20 candidates remain; then
`base_score * 0.01` is added when the word is itself a possible answer. -/
noncomputable def apply_bonuses_loop (possible_words : List Word)
    (word_ranks : List (Word × ℕ)) (max_rank : ℕ) :
    List (Word × ℝ) → List (Word × ℝ) → List (Word × ℝ)
  | final_scores, [] => final_scores
  | final_scores, (word, base_score) :: rest =>
    let final1 : ℝ :=
      if word_ranks ≠ [] ∧ (word_ranks.lookup word).isSome then
        (if possible_words.length ≤ 20 then
          base_score + (1 - (((word_ranks.lookup word).getD 0 : ℕ) : ℝ) / (max_rank : ℝ)) * 0.5
         else base_score)
      else base_score
    let final2 : ℝ := if word ∈ possible_words then final1 + base_score * 0.01 else final1
    apply_bonuses_loop possible_words word_ranks max_rank (final_scores ++ [(word, final2)]) rest

/-- `apply_bonuses_to_top_candidates` (src/wordle-solver.py lines 192-215). -/
noncomputable def apply_bonuses_to_top_candidates (top_candidates : List (Word × ℝ))
    (possible_words : List Word) (word_ranks : List (Word × ℕ)) : List (Word × ℝ) :=
  apply_bonuses_loop possible_words word_ranks (max_rank_of word_ranks) [] top_candidates

/-- `find_best_guess` (src/wordle-solver.py lines 217-247): the two-pass
selector.  `none` models the `IndexError` Python would raise on an empty
pool (`final_scores[0]`). -/
noncomputable def find_best_guess (possible_words all_words excluded_words : List Word)
    (word_ranks : List (Word × ℕ)) (force_possible : Bool) (top_candidates_count : ℕ) :
    Option Word :=
  match get_candidate_words possible_words all_words excluded_words force_possible with
  | (some best_word, _) => some best_word
  | (none, words_to_check) =>
    let k := min top_candidates_count words_to_check.length
    let word_scores := calculate_word_entropy_scores words_to_check possible_words
    let top_candidates := (sort_desc word_scores).take k
    let final_scores := apply_bonuses_to_top_candidates top_candidates possible_words word_ranks
    let final_sorted := sort_desc final_scores
    (final_sorted.head?).map Prod.fst

/-- The `frequency_words` reference set computed by `find_best_guesses`
(src/solver.py lines 184-188): the possible words that appear in the
frequency ranking, falling back to all possible words when the ranking is
empty or no possible word is ranked. -/
def solver_frequency_words (possible_words : List Word) (word_ranks : List (Word × ℕ)) :
    List Word :=
  let frequency_words :=
    if word_ranks ≠ [] then
      possible_words.filter (fun w => (word_ranks.lookup w).isSome)
    else possible_words
  if frequency_words = [] then possible_words else frequency_words

/-- `find_best_guesses` (src/solver.py lines 174-236), the single-pass
selector variant: entropy is computed against `frequency_words`, and the
top information word is returned (display-only computations omitted).
`none` models the `IndexError` on an empty pool. -/
noncomputable def find_best_guesses (possible_words all_words excluded_words : List Word)
    (word_ranks : List (Word × ℕ)) (force_possible : Bool) : Option Word :=
  if possible_words.length = 1 then some (possible_words.getD 0 [])
  else
    let frequency_words := solver_frequency_words possible_words word_ranks
    let words_to_check := if force_possible then possible_words else all_words
    let words_to_check2 :=
      if excluded_words ≠ [] then
        words_to_check.filter (fun w => w ∉ excluded_words)
      else words_to_check
    let word_scores := calculate_word_entropy_scores words_to_check2 frequency_words
    let top_info_words := (sort_desc word_scores).take 5
    (top_info_words.head?).map Prod.fst

/-- The strong opening words of src/wordle-solver.py lines 280-284. -/
def first_guesses : List Word :=
  [['s','l','a','t','e'], ['c','r','a','n','e'], ['t','r','a','c','e'],
   ['s','l','a','n','t'], ['c','r','a','t','e'], ['c','a','r','t','e'],
   ['s','a','l','e','t'], ['t','r','a','d','e'], ['r','o','a','t','e'],
   ['r','a','i','s','e'], ['s','o','a','r','e'], ['s','t','a','r','e'],
   ['r','e','a','c','t'], ['c','a','r','e','t'], ['a','l','e','r','t']]

/-- The guess-selection block of the main loop (src/wordle-solver.py lines
293-316): the sole remaining possibility is returned directly; on turn 1 a
word from the curated opening list is used (the random choice is a
parameter); otherwise `find_best_guess` is invoked, forcing the pool to the
possible words when the strategy says so or at most 4 candidates remain. -/
noncomputable def select_guess (possible_words all_words skipped_words : List Word)
    (word_ranks : List (Word × ℕ)) (guess_count : ℤ) (first_guess : Word)
    (always_guess_possible : Bool) : Option Word :=
  if possible_words.length = 1 then some (possible_words.getD 0 [])
  else if guess_count = 1 then some first_guess
  else
    find_best_guess possible_words all_words skipped_words word_ranks
      (always_guess_possible || decide (possible_words.length ≤ 4)) 10

/-- The messages printed by the branches of the main loop's input handling. -/
inductive Notice where
  | started
  | nothingToUndo
  | undidLast
  | skipped
  | solvedMsg
  | invalidPattern
  | noMatching
  | committed
deriving DecidableEq, Repr

/-- One user input at the feedback prompt: `undo`, `skip`, or a raw pattern
string (the win code `ggggg` and malformed codes are pattern inputs that the
loop classifies itself, as in the source). -/
inductive Input where
  | undo
  | skip
  | pattern (p : Pattern)
deriving DecidableEq, Repr

/-- The mutable state of the main game loop (src/wordle-solver.py lines
260-267, 287-288): the candidate set, the skipped-word set, the three
parallel history lists, the turn counter and the solved flag.  `notice`
records which message the last processed input printed. -/
structure SessionState where
  possible_words : List Word
  skipped_words : List Word
  guess_history : List Word
  pattern_history : List Pattern
  possible_words_history : List (List Word)
  guess_count : ℤ
  solved : Bool
  notice : Notice
deriving DecidableEq, Repr

/-- Python `set.add`: insert a word into the skipped set if absent. -/
def addSkip (s : List Word) (w : Word) : List Word :=
  if w ∈ s then s else s ++ [w]

/-- The initial session state of `main` (src/wordle-solver.py lines
260-267): the candidate set is the full word list, the skipped set is
empty, and the snapshot history holds the initial candidate set. -/
def initState (all_words : List Word) : SessionState :=
  { possible_words := all_words
    skipped_words := []
    guess_history := []
    pattern_history := []
    possible_words_history := [all_words]
    guess_count := 0
    solved := false
    notice := .started }

/-- The valid-pattern check of src/wordle-solver.py line 373:
length 5 and only `r`/`y`/`g` symbols. -/
def validPattern (p : Pattern) : Prop :=
  p.length = 5 ∧ ∀ c ∈ p, c = 'r' ∨ c = 'y' ∨ c = 'g'

instance (p : Pattern) : Decidable (validPattern p) := by
  unfold validPattern
  infer_instance

/-- One iteration of the main game loop (src/wordle-solver.py lines
290-399) given the selected guess and the user's input: the turn counter is
incremented, the pending guess and candidate-set snapshot are appended to
the histories, and the input is dispatched to the `undo` / `skip` / win /
invalid-pattern / filter branches exactly as in the source.  Note that the
empty-filter branch appends to `pattern_history` before reverting and does
not remove that entry, and the undo branches pop only the pending history
entries, as in the source. -/
def loop_step (st : SessionState) (guess : Word) (input : Input) : SessionState :=
  let st1 : SessionState :=
    { st with
      guess_count := st.guess_count + 1
      guess_history := st.guess_history ++ [guess]
      possible_words_history := st.possible_words_history ++ [st.possible_words] }
  match input with
  | .undo =>
    if st1.guess_history.length ≤ 1 then
      { st1 with guess_count := st1.guess_count - 1, notice := .nothingToUndo }
    else
      let gh := st1.guess_history.dropLast
      let pwh := st1.possible_words_history.dropLast
      { st1 with
        guess_history := gh
        possible_words_history := pwh
        possible_words := pwh.getLastD []
        guess_count := st1.guess_count - 2
        notice := .undidLast }
  | .skip =>
    { st1 with
      skipped_words := addSkip st1.skipped_words guess
      possible_words := st1.possible_words.erase guess
      guess_history := st1.guess_history.dropLast
      possible_words_history := st1.possible_words_history.dropLast
      guess_count := st1.guess_count - 1
      notice := .skipped }
  | .pattern p =>
    if p = ['g','g','g','g','g'] then
      { st1 with solved := true, notice := .solvedMsg }
    else if ¬ validPattern p then
      { st1 with
        guess_history := st1.guess_history.dropLast
        possible_words_history := st1.possible_words_history.dropLast
        guess_count := st1.guess_count - 1
        notice := .invalidPattern }
    else
      let st2 := { st1 with pattern_history := st1.pattern_history ++ [p] }
      let new_possible_words := filter_words guess p st2.possible_words
      if new_possible_words = [] then
        { st2 with
          guess_history := st2.guess_history.dropLast
          possible_words_history := st2.possible_words_history.dropLast
          guess_count := st2.guess_count - 1
          notice := .noMatching }
      else
        { st2 with possible_words := new_possible_words, notice := .committed }

/-! ### Structural characterization of the two evaluation passes

The index loops of `evaluate_guess` are bridged to structurally recursive
functions on the word lists, over which the counting invariants of the
claims are proved by induction. -/

/-- The marks produced by the first (green) pass, position by position. -/
def markGreens : Word → Word → List Char
  | g :: gs, t :: ts => (if g = t then 'g' else 'r') :: markGreens gs ts
  | _, _ => []

/-- The second (yellow) pass over `(mark, guess letter)` pairs carrying the
remaining-count state, structurally recursive version of `pass2`. -/
def yellowPass (target : Word) : List (Char × Char) → (Char → ℤ) → List (Char × Char)
  | [], _ => []
  | (mk, g) :: rest, tc =>
    if mk = 'r' ∧ g ∈ target ∧ tc g > 0 then
      ('y', g) :: yellowPass target rest (decr tc g)
    else
      (mk, g) :: yellowPass target rest tc

/-- Number of positions where guess and target agree on the letter `c`
(the green marks carrying `c`). -/
def greens (c : Char) (guess target : Word) : ℕ :=
  ((guess.zip target).filter (fun p => p.1 = p.2 ∧ p.1 = c)).length

/-- Number of non-gray marks among the pairs whose guess letter is `c`. -/
def countNG (c : Char) (l : List (Char × Char)) : ℕ :=
  (l.filter (fun p => p.2 = c ∧ p.1 ≠ 'r')).length

/-- Number of gray marks among the pairs whose guess letter is `c`. -/
def countGray (c : Char) (l : List (Char × Char)) : ℕ :=
  (l.filter (fun p => p.2 = c ∧ p.1 = 'r')).length

lemma greens_cons (c g t : Char) (gs ts : Word) :
    greens c (g :: gs) (t :: ts) = greens c gs ts + (if g = t ∧ g = c then 1 else 0) := by
  simp only [greens, List.zip_cons_cons, List.filter_cons, decide_eq_true_eq]
  split_ifs <;> simp

lemma countNG_cons (c mk g : Char) (rest : List (Char × Char)) :
    countNG c ((mk, g) :: rest) = countNG c rest + (if g = c ∧ mk ≠ 'r' then 1 else 0) := by
  simp only [countNG, List.filter_cons, decide_eq_true_eq]
  split_ifs <;> simp

lemma countGray_cons (c mk g : Char) (rest : List (Char × Char)) :
    countGray c ((mk, g) :: rest) = countGray c rest + (if g = c ∧ mk = 'r' then 1 else 0) := by
  simp only [countGray, List.filter_cons, decide_eq_true_eq]
  split_ifs <;> simp

lemma pass1_shift (g t : Char) (gs ts : Word) (is : List ℕ) :
    ∀ (m : Char) (res : List Char) (tc : Char → ℤ),
    pass1 (g :: gs) (t :: ts) (is.map Nat.succ) (m :: res) tc =
      ((pass1 gs ts is res tc).1.cons m, (pass1 gs ts is res tc).2) := by
  induction is with
  | nil => intro m res tc; simp [pass1]
  | cons i is ih =>
    intro m res tc
    simp only [List.map_cons, pass1, Nat.succ_eq_add_one, List.getD_cons_succ,
      List.set_cons_succ]
    split
    · exact ih m (res.set i 'g') (decr tc (gs.getD i '?'))
    · exact ih m res tc

lemma pass2_shift (g : Char) (gs target : Word) (is : List ℕ) :
    ∀ (m : Char) (res : List Char) (tc : Char → ℤ),
    pass2 (g :: gs) target (is.map Nat.succ) (m :: res) tc =
      m :: pass2 gs target is res tc := by
  induction is with
  | nil => intro m res tc; simp [pass2]
  | cons i is ih =>
    intro m res tc
    simp only [List.map_cons, pass2, Nat.succ_eq_add_one, List.getD_cons_succ,
      List.set_cons_succ]
    split
    · exact ih m (res.set i 'y') (decr tc (gs.getD i '?'))
    · exact ih m res tc

lemma pass1_spec :
    ∀ (guess target : Word) (tc : Char → ℤ), guess.length = target.length →
    pass1 guess target (List.range guess.length) (List.replicate guess.length 'r') tc =
      (markGreens guess target, fun c => tc c - (greens c guess target : ℤ)) := by
  intro guess
  induction guess with
  | nil =>
    intro target tc hlen
    cases target with
    | nil =>
      simp only [List.length_nil, List.range_zero, List.replicate_zero, pass1, markGreens]
      refine Prod.ext rfl ?_
      funext c
      simp [greens]
    | cons t ts => simp at hlen
  | cons g gs ih =>
    intro target tc hlen
    cases target with
    | nil => simp at hlen
    | cons t ts =>
      simp only [List.length_cons] at hlen
      have hlen' : gs.length = ts.length := by omega
      simp only [List.length_cons, List.range_succ_eq_map, List.replicate_succ, pass1,
        List.getD_cons_zero, List.set_cons_zero]
      by_cases hgt : g = t
      · rw [if_pos hgt, pass1_shift, ih ts (decr tc g) hlen']
        show _ = ((if g = t then 'g' else 'r') :: markGreens gs ts, _)
        rw [if_pos hgt]
        refine Prod.ext rfl ?_
        funext c
        show decr tc g c - (greens c gs ts : ℤ) = tc c - (greens c (g :: gs) (t :: ts) : ℤ)
        rw [greens_cons]
        by_cases hcg : c = g
        · rw [if_pos ⟨hgt, hcg.symm⟩]
          simp only [decr, if_pos hcg, hcg]
          push_cast
          ring
        · have hgc : ¬ (g = t ∧ g = c) := fun h => hcg h.2.symm
          rw [if_neg hgc]
          simp only [decr, if_neg hcg]
          simp
      · rw [if_neg hgt, pass1_shift, ih ts tc hlen']
        show _ = ((if g = t then 'g' else 'r') :: markGreens gs ts, _)
        rw [if_neg hgt]
        refine Prod.ext rfl ?_
        funext c
        show tc c - (greens c gs ts : ℤ) = tc c - (greens c (g :: gs) (t :: ts) : ℤ)
        rw [greens_cons]
        have hgc : ¬ (g = t ∧ g = c) := fun h => hgt h.1
        rw [if_neg hgc]
        simp

lemma pass2_spec :
    ∀ (guess res : Word), res.length = guess.length → ∀ (target : Word) (tc : Char → ℤ),
    pass2 guess target (List.range guess.length) res tc =
      (yellowPass target (res.zip guess) tc).map Prod.fst := by
  intro guess
  induction guess with
  | nil =>
    intro res hlen target tc
    cases res with
    | nil => simp [pass2, yellowPass]
    | cons m ms => simp at hlen
  | cons g gs ih =>
    intro res hlen target tc
    cases res with
    | nil => simp at hlen
    | cons m ms =>
      simp only [List.length_cons] at hlen
      have hlen' : ms.length = gs.length := by omega
      simp only [List.length_cons, List.range_succ_eq_map, pass2, List.getD_cons_zero,
        List.set_cons_zero, List.zip_cons_cons, yellowPass]
      by_cases hcond : m = 'r' ∧ g ∈ target ∧ tc g > 0
      · rw [if_pos hcond, if_pos hcond, pass2_shift, ih ms hlen' target (decr tc g)]
        simp [List.zip]
      · rw [if_neg hcond, if_neg hcond, pass2_shift, ih ms hlen' target tc]
        simp [List.zip]

lemma markGreens_length :
    ∀ (guess target : Word), guess.length = target.length →
    (markGreens guess target).length = guess.length := by
  intro guess
  induction guess with
  | nil => intro target hlen; cases target <;> simp_all [markGreens]
  | cons g gs ih =>
    intro target hlen
    cases target with
    | nil => simp at hlen
    | cons t ts =>
      simp only [List.length_cons] at hlen
      simp only [markGreens, List.length_cons, ih ts (by omega)]

/-- The evaluated pattern, as the yellow pass applied to the green-pass
marks with the remaining target letter counts. -/
lemma evaluate_guess_eq (guess target : Word) (hg : guess.length = 5)
    (ht : target.length = 5) :
    evaluate_guess guess target =
      (yellowPass target ((markGreens guess target).zip guess)
        (fun c => (List.count c target : ℤ) - (greens c guess target : ℤ))).map Prod.fst := by
  have hlen : guess.length = target.length := by rw [hg, ht]
  have h5 : (5 : ℕ) = guess.length := hg.symm
  have key : evaluate_guess guess target =
      pass2 guess target (List.range 5)
        (pass1 guess target (List.range 5) (List.replicate 5 'r')
          (fun c => (List.count c target : ℤ))).1
        (pass1 guess target (List.range 5) (List.replicate 5 'r')
          (fun c => (List.count c target : ℤ))).2 := rfl
  rw [key, h5]
  simp only [pass1_spec guess target _ hlen]
  exact pass2_spec guess (markGreens guess target) (markGreens_length guess target hlen) target _

lemma yellowPass_length (target : Word) :
    ∀ (ps : List (Char × Char)) (tc : Char → ℤ),
    (yellowPass target ps tc).length = ps.length := by
  intro ps
  induction ps with
  | nil => intro tc; simp [yellowPass]
  | cons p rest ih =>
    intro tc
    obtain ⟨mk, g⟩ := p
    simp only [yellowPass]
    split <;> simp [ih]

lemma yellowPass_map_snd (target : Word) :
    ∀ (ps : List (Char × Char)) (tc : Char → ℤ),
    (yellowPass target ps tc).map Prod.snd = ps.map Prod.snd := by
  intro ps
  induction ps with
  | nil => intro tc; simp [yellowPass]
  | cons p rest ih =>
    intro tc
    obtain ⟨mk, g⟩ := p
    simp only [yellowPass]
    split <;> simp [ih]

lemma yellowPass_symbols (target : Word) :
    ∀ (ps : List (Char × Char)) (tc : Char → ℤ),
    (∀ p ∈ ps, p.1 = 'r' ∨ p.1 = 'y' ∨ p.1 = 'g') →
    ∀ q ∈ yellowPass target ps tc, q.1 = 'r' ∨ q.1 = 'y' ∨ q.1 = 'g' := by
  intro ps
  induction ps with
  | nil => intro tc _ q hq; simp [yellowPass] at hq
  | cons p rest ih =>
    intro tc hps q hq
    obtain ⟨mk, g⟩ := p
    simp only [yellowPass] at hq
    split at hq
    · rcases List.mem_cons.mp hq with h | h
      · subst h; right; left; rfl
      · exact ih (decr tc g) (fun p hp => hps p (List.mem_cons_of_mem _ hp)) q h
    · rcases List.mem_cons.mp hq with h | h
      · subst h; exact hps (mk, g) (List.mem_cons_self _ _)
      · exact ih tc (fun p hp => hps p (List.mem_cons_of_mem _ hp)) q h

lemma yellowPass_no_gray (target : Word) :
    ∀ (ps : List (Char × Char)) (tc : Char → ℤ),
    (∀ p ∈ ps, p.1 ≠ 'r') → yellowPass target ps tc = ps := by
  intro ps
  induction ps with
  | nil => intro tc _; simp [yellowPass]
  | cons p rest ih =>
    intro tc hps
    obtain ⟨mk, g⟩ := p
    have hmk : mk ≠ 'r' := hps (mk, g) (List.mem_cons_self _ _)
    simp only [yellowPass]
    rw [if_neg (fun h => hmk h.1), ih tc (fun p hp => hps p (List.mem_cons_of_mem _ hp))]

/-- Counting invariant of the yellow pass for a letter of the target: the
non-gray marks it leaves on the positions carrying letter `c` are the
non-gray marks already there plus one yellow for each gray `c` position
while the remaining count lasts. -/
lemma yellowPass_countNG_mem (target : Word) (c : Char) (hc : c ∈ target) :
    ∀ (ps : List (Char × Char)) (tc : Char → ℤ), 0 ≤ tc c →
    countNG c (yellowPass target ps tc) =
      countNG c ps + min (countGray c ps) (tc c).toNat := by
  intro ps
  induction ps with
  | nil => intro tc _; simp [yellowPass, countNG, countGray]
  | cons p rest ih =>
    intro tc htc
    obtain ⟨mk, g⟩ := p
    simp only [yellowPass]
    by_cases hcond : mk = 'r' ∧ g ∈ target ∧ tc g > 0
    · rw [if_pos hcond, countNG_cons, countNG_cons, countGray_cons]
      by_cases hgc : g = c
      · subst hgc
        have hdecr : decr tc g g = tc g - 1 := by simp [decr]
        have hpos : 0 < tc g := hcond.2.2
        rw [ih (decr tc g) (by rw [hdecr]; omega), hdecr]
        rw [if_pos ⟨rfl, by decide⟩, if_neg (fun h => h.2 hcond.1),
          if_pos ⟨rfl, hcond.1⟩]
        omega
      · have hdecr : decr tc g c = tc c := by
          simp only [decr]
          rw [if_neg (fun h => hgc h.symm)]
        have hng1 : ¬ (g = c ∧ ('y' : Char) ≠ 'r') := fun h => hgc h.1
        have hng2 : ¬ (g = c ∧ mk ≠ 'r') := fun h => hgc h.1
        have hng3 : ¬ (g = c ∧ mk = 'r') := fun h => hgc h.1
        rw [ih (decr tc g) (by rw [hdecr]; exact htc), hdecr,
          if_neg hng1, if_neg hng2, if_neg hng3]
        omega
    · rw [if_neg hcond, countNG_cons, countNG_cons, countGray_cons,
        ih tc htc]
      by_cases hgc : g = c
      · subst hgc
        by_cases hmk : mk = 'r'
        · have hz : tc g = 0 := by
            have : ¬ tc g > 0 := fun h => hcond ⟨hmk, hc, h⟩
            omega
          rw [if_neg (fun h => h.2 hmk), if_pos ⟨rfl, hmk⟩, hz]
          simp
        · rw [if_pos ⟨rfl, hmk⟩, if_neg (fun h => hmk h.2)]
          omega
      · have hng2 : ¬ (g = c ∧ mk ≠ 'r') := fun h => hgc h.1
        have hng3 : ¬ (g = c ∧ mk = 'r') := fun h => hgc h.1
        rw [if_neg hng2, if_neg hng3]
        omega

/-- The yellow pass never marks a letter that is not in the target. -/
lemma yellowPass_countNG_notmem (target : Word) (c : Char) (hc : c ∉ target) :
    ∀ (ps : List (Char × Char)) (tc : Char → ℤ),
    countNG c (yellowPass target ps tc) = countNG c ps := by
  intro ps
  induction ps with
  | nil => intro tc; simp [yellowPass]
  | cons p rest ih =>
    intro tc
    obtain ⟨mk, g⟩ := p
    simp only [yellowPass]
    by_cases hcond : mk = 'r' ∧ g ∈ target ∧ tc g > 0
    · have hgc : g ≠ c := fun h => hc (h ▸ hcond.2.1)
      rw [if_pos hcond, countNG_cons, countNG_cons,
        if_neg (fun h => hgc h.1), if_neg (fun h => hgc h.1), ih]
    · rw [if_neg hcond, countNG_cons, countNG_cons, ih]

lemma countNG_markGreens (c : Char) :
    ∀ (guess target : Word), guess.length = target.length →
    countNG c ((markGreens guess target).zip guess) = greens c guess target := by
  intro guess
  induction guess with
  | nil => intro target hlen; cases target <;> simp_all [markGreens, countNG, greens]
  | cons g gs ih =>
    intro target hlen
    cases target with
    | nil => simp at hlen
    | cons t ts =>
      simp only [List.length_cons] at hlen
      simp only [markGreens, List.zip_cons_cons] at *
      rw [countNG_cons, greens_cons, ih ts (by omega)]
      by_cases hgt : g = t
      · rw [if_pos hgt]
        by_cases hgc : g = c
        · rw [if_pos ⟨hgc, by decide⟩, if_pos ⟨hgt, hgc⟩]
        · rw [if_neg (fun h => hgc h.1), if_neg (fun h => hgc h.2)]
      · rw [if_neg hgt, if_neg (fun h => h.2 rfl), if_neg (fun h => hgt h.1)]

lemma countGray_markGreens (c : Char) :
    ∀ (guess target : Word), guess.length = target.length →
    countGray c ((markGreens guess target).zip guess) + greens c guess target =
      List.count c guess := by
  intro guess
  induction guess with
  | nil => intro target hlen; cases target <;> simp_all [markGreens, countGray, greens]
  | cons g gs ih =>
    intro target hlen
    cases target with
    | nil => simp at hlen
    | cons t ts =>
      simp only [List.length_cons] at hlen
      have hrec := ih ts (by omega)
      by_cases hgt : g = t
      · rw [show markGreens (g :: gs) (t :: ts) = 'g' :: markGreens gs ts by
          simp [markGreens, hgt]]
        rw [List.zip_cons_cons, countGray_cons, greens_cons, List.count_cons]
        have hgr : ¬ (g = c ∧ ('g' : Char) = 'r') := fun h => by simp at h
        rw [if_neg hgr]
        by_cases hgc : g = c
        · rw [if_pos ⟨hgt, hgc⟩, if_pos (beq_iff_eq.mpr hgc)]
          omega
        · rw [if_neg (fun h => hgc h.2), if_neg (by simp [hgc])]
          omega
      · rw [show markGreens (g :: gs) (t :: ts) = 'r' :: markGreens gs ts by
          simp [markGreens, hgt]]
        rw [List.zip_cons_cons, countGray_cons, greens_cons, List.count_cons]
        by_cases hgc : g = c
        · rw [if_pos ⟨hgc, rfl⟩, if_neg (fun h => hgt h.1), if_pos (beq_iff_eq.mpr hgc)]
          omega
        · rw [if_neg (fun h => hgc h.1), if_neg (fun h => hgt h.1),
            if_neg (by simp [hgc])]
          omega

lemma greens_le_count_target (c : Char) :
    ∀ (guess target : Word), greens c guess target ≤ List.count c target := by
  intro guess
  induction guess with
  | nil => intro target; simp [greens]
  | cons g gs ih =>
    intro target
    cases target with
    | nil => simp [greens]
    | cons t ts =>
      rw [greens_cons, List.count_cons]
      have hrec := ih ts
      simp only [beq_iff_eq]
      split_ifs with h1 h2
      · omega
      · exact absurd (h1.1 ▸ h1.2) h2
      · omega
      · omega

lemma zip_fst_snd {α β : Type} :
    ∀ (l : List (α × β)), (l.map Prod.fst).zip (l.map Prod.snd) = l := by
  intro l
  induction l with
  | nil => simp
  | cons p rest ih => obtain ⟨a, b⟩ := p; simp [ih]

lemma zip_map_fst {α β : Type} (l : List (α × β)) (w : List β)
    (h : l.map Prod.snd = w) : (l.map Prod.fst).zip w = l := by
  subst h
  exact zip_fst_snd l

lemma markGreens_symbols :
    ∀ (guess target : Word) (m : Char), m ∈ markGreens guess target → m = 'g' ∨ m = 'r' := by
  intro guess
  induction guess with
  | nil => intro target m hm; simp [markGreens] at hm
  | cons g gs ih =>
    intro target m hm
    cases target with
    | nil => simp [markGreens] at hm
    | cons t ts =>
      simp only [markGreens] at hm
      rcases List.mem_cons.mp hm with h | h
      · subst h
        split <;> simp
      · exact ih ts m h

lemma markGreens_self : ∀ (w : Word), markGreens w w = List.replicate w.length 'g' := by
  intro w
  induction w with
  | nil => simp [markGreens]
  | cons a as ih => simp [markGreens, ih, List.replicate_succ]

/-- Membership form of the evaluated marks over the yellow pass output. -/
lemma evaluate_guess_zip (guess target : Word) (hg : guess.length = 5)
    (ht : target.length = 5) :
    (evaluate_guess guess target).zip guess =
      yellowPass target ((markGreens guess target).zip guess)
        (fun c => (List.count c target : ℤ) - (greens c guess target : ℤ)) := by
  have hlen : guess.length = target.length := by rw [hg, ht]
  rw [evaluate_guess_eq guess target hg ht]
  have hsnd :
      (yellowPass target ((markGreens guess target).zip guess)
        (fun c => (List.count c target : ℤ) - (greens c guess target : ℤ))).map Prod.snd
        = guess := by
    rw [yellowPass_map_snd]
    exact List.map_snd_zip _ _ (le_of_eq (by rw [markGreens_length guess target hlen]))
  exact zip_map_fst _ guess hsnd

/-- C1: for every 5-letter guess and target, `evaluate_guess` follows the
two-pass rule, so for each letter the number of green-plus-yellow marks on
that letter's guess positions equals the minimum of its occurrence count in
the guess and its occurrence count in the target; surplus duplicate copies
in the guess stay gray. -/
theorem evaluate_guess_min_marks (guess target : Word) (c : Char)
    (hg : guess.length = 5) (ht : target.length = 5) :
    (((evaluate_guess guess target).zip guess).filter
        (fun p => (p.1 = 'g' ∨ p.1 = 'y') ∧ p.2 = c)).length
      = min (List.count c guess) (List.count c target) := by
  have hlen : guess.length = target.length := by rw [hg, ht]
  rw [evaluate_guess_zip guess target hg ht]
  have hsym : ∀ q ∈ yellowPass target ((markGreens guess target).zip guess)
      (fun c => (List.count c target : ℤ) - (greens c guess target : ℤ)),
      q.1 = 'r' ∨ q.1 = 'y' ∨ q.1 = 'g' := by
    apply yellowPass_symbols
    intro p hp
    rcases markGreens_symbols guess target p.1 (List.of_mem_zip hp).1 with h | h
    · right; right; exact h
    · left; exact h
  have hfc :
      (yellowPass target ((markGreens guess target).zip guess)
        (fun c => (List.count c target : ℤ) - (greens c guess target : ℤ))).filter
          (fun p => (p.1 = 'g' ∨ p.1 = 'y') ∧ p.2 = c)
      = (yellowPass target ((markGreens guess target).zip guess)
          (fun c => (List.count c target : ℤ) - (greens c guess target : ℤ))).filter
          (fun p => p.2 = c ∧ p.1 ≠ 'r') := by
    apply List.filter_congr
    intro x hx
    rw [decide_eq_decide]
    constructor
    · rintro ⟨h1, h2⟩
      refine ⟨h2, ?_⟩
      rcases h1 with h | h <;> simp [h]
    · rintro ⟨h2, h1⟩
      refine ⟨?_, h2⟩
      rcases hsym x hx with h | h | h
      · exact absurd h h1
      · right; exact h
      · left; exact h
  rw [hfc]
  show countNG c _ = _
  by_cases hc : c ∈ target
  · have h3 := greens_le_count_target c guess target
    have h0 : (0:ℤ) ≤ (List.count c target : ℤ) - (greens c guess target : ℤ) := by
      omega
    rw [yellowPass_countNG_mem target c hc ((markGreens guess target).zip guess) _ h0]
    have h1 := countNG_markGreens c guess target hlen
    have h2 := countGray_markGreens c guess target hlen
    rw [h1]
    omega
  · rw [yellowPass_countNG_notmem target c hc, countNG_markGreens c guess target hlen]
    have h3 := greens_le_count_target c guess target
    have h4 : List.count c target = 0 := List.count_eq_zero.mpr hc
    omega

theorem evaluate_guess_min_marks_witness :
    (['a','l','l','e','e'] : Word).length = 5 ∧ (['l','a','b','e','l'] : Word).length = 5 ∧
    (((evaluate_guess ['a','l','l','e','e'] ['l','a','b','e','l']).zip
        ['a','l','l','e','e']).filter
        (fun p => (p.1 = 'g' ∨ p.1 = 'y') ∧ p.2 = 'l')).length
      = min (List.count 'l' ['a','l','l','e','e']) (List.count 'l' ['l','a','b','e','l']) :=
  ⟨by decide, by decide, evaluate_guess_min_marks _ _ 'l' (by decide) (by decide)⟩

/-- C8: for every pair of 5-letter words the feedback code has length
exactly 5 and uses only the symbols `r`, `y`, `g`; and evaluating a word
against itself is all green. -/
theorem evaluate_guess_wellformed (guess target : Word) (hg : guess.length = 5)
    (ht : target.length = 5) :
    (evaluate_guess guess target).length = 5 ∧
    (∀ m ∈ evaluate_guess guess target, m = 'r' ∨ m = 'y' ∨ m = 'g') ∧
    evaluate_guess guess guess = ['g','g','g','g','g'] := by
  have hlen : guess.length = target.length := by rw [hg, ht]
  refine ⟨?_, ?_, ?_⟩
  · rw [evaluate_guess_eq guess target hg ht, List.length_map, yellowPass_length,
      List.length_zip, markGreens_length guess target hlen, hg]
    simp
  · intro m hm
    rw [evaluate_guess_eq guess target hg ht] at hm
    rcases List.mem_map.mp hm with ⟨q, hq, rfl⟩
    refine yellowPass_symbols target _ _ ?_ q hq
    intro p hp
    rcases markGreens_symbols guess target p.1 (List.of_mem_zip hp).1 with h | h
    · right; right; exact h
    · left; exact h
  · rw [evaluate_guess_eq guess guess hg hg, markGreens_self, hg]
    rw [yellowPass_no_gray]
    · rw [List.map_fst_zip]
      · rfl
      · rw [List.length_replicate, hg]
    · intro p hp
      have hpg : p.1 = 'g' := List.eq_of_mem_replicate (List.of_mem_zip hp).1
      rw [hpg]
      decide

theorem evaluate_guess_wellformed_witness :
    (['c','r','a','n','e'] : Word).length = 5 ∧ (['s','l','a','t','e'] : Word).length = 5 ∧
    ((evaluate_guess ['c','r','a','n','e'] ['s','l','a','t','e']).length = 5 ∧
     (∀ m ∈ evaluate_guess ['c','r','a','n','e'] ['s','l','a','t','e'],
        m = 'r' ∨ m = 'y' ∨ m = 'g') ∧
     evaluate_guess ['c','r','a','n','e'] ['c','r','a','n','e'] = ['g','g','g','g','g']) :=
  ⟨by decide, by decide, evaluate_guess_wellformed _ _ (by decide) (by decide)⟩

/-- C2: `filter_words` returns exactly the members of the candidate list
whose evaluation against the guess equals the observed pattern; in
particular a target that is among the candidates always survives filtering
by its own true feedback, and an empty result is an ordinary return value
of the (total) function. -/
theorem filter_words_spec (guess : Word) (pattern : Pattern) (target : Word)
    (candidates : List Word) :
    (∀ w, w ∈ filter_words guess pattern candidates ↔
      (w ∈ candidates ∧ evaluate_guess guess w = pattern)) ∧
    (target ∈ candidates →
      target ∈ filter_words guess (evaluate_guess guess target) candidates) := by
  constructor
  · intro w
    simp [filter_words, List.mem_filter]
  · intro ht
    simp [filter_words, List.mem_filter, ht]

theorem filter_words_spec_witness :
    ['s','l','a','t','e'] ∈ ([['c','r','a','n','e'], ['s','l','a','t','e']] : List Word) ∧
    ['s','l','a','t','e'] ∈ filter_words ['c','r','a','n','e']
      (evaluate_guess ['c','r','a','n','e'] ['s','l','a','t','e'])
      [['c','r','a','n','e'], ['s','l','a','t','e']] :=
  ⟨by decide,
    (filter_words_spec ['c','r','a','n','e']
      (evaluate_guess ['c','r','a','n','e'] ['s','l','a','t','e'])
      ['s','l','a','t','e'] [['c','r','a','n','e'], ['s','l','a','t','e']]).2 (by decide)⟩

/-- Entropy of a one-word reference set: the single pattern group has
probability one. -/
lemma entropy_single (word w : Word) : calculate_entropy word [w] = 0 := by
  simp [calculate_entropy, Real.logb_one]

/-- Entropy of a two-word reference set split into two distinct pattern
groups: two groups of probability one half each. -/
lemma entropy_pair (word w1 w2 : Word)
    (hne : evaluate_guess word w1 ≠ evaluate_guess word w2) :
    calculate_entropy word [w1, w2] = 1 := by
  have h2 : evaluate_guess word w2 ≠ evaluate_guess word w1 := Ne.symm hne
  simp only [calculate_entropy, List.map_cons, List.map_nil, List.length_cons,
    List.length_nil, List.foldl_cons, List.foldl_nil, List.count_cons, List.count_nil]
  simp [hne, h2]
  norm_num

/-- C9: against a reference set containing exactly one word the pattern
distribution has a single group, so the entropy is exactly zero, for every
word. -/
theorem calculate_entropy_singleton (word w : Word) :
    calculate_entropy word [w] = 0 :=
  entropy_single word w

/-- C10: when the candidate set contains exactly one word, both selectors
return that word immediately, for every dictionary, excluded set, ranking
and mode — in particular also when the word is in the excluded set. -/
theorem single_candidate_shortcut (w : Word) (all_words excluded_words : List Word)
    (word_ranks : List (Word × ℕ)) (force_possible : Bool) (top_candidates_count : ℕ) :
    find_best_guess [w] all_words excluded_words word_ranks force_possible
        top_candidates_count = some w ∧
    find_best_guesses [w] all_words excluded_words word_ranks force_possible = some w := by
  constructor
  · simp [find_best_guess, get_candidate_words]
  · simp [find_best_guesses]

/-- The pool-word scores computed by `calculate_word_entropy_scores` are
the entropies of the pool words against the given reference set. -/
lemma calculate_word_entropy_scores_eq_map (words_to_check reference_set : List Word) :
    calculate_word_entropy_scores words_to_check reference_set =
      words_to_check.map (fun w => (w, calculate_entropy w reference_set)) := by
  induction words_to_check with
  | nil => simp [calculate_word_entropy_scores]
  | cons w rest ih => simp [calculate_word_entropy_scores, ih]

/-- C3 (amended): the two selectors' entropy passes and their reference
sets.  `find_best_guess` (src/wordle-solver.py) scores every pool word
against the current candidate set; `find_best_guesses` (src/solver.py)
scores every pool word against `solver_frequency_words`, the ranked subset
of the candidates (all candidates when the ranking is empty or disjoint). -/
theorem entropy_pass_reference_sets (possible_words all_words excluded_words : List Word)
    (word_ranks : List (Word × ℕ)) (force_possible : Bool) (top_candidates_count : ℕ)
    (h1 : possible_words.length ≠ 1) :
    (∀ (words_to_check reference_set : List Word),
      calculate_word_entropy_scores words_to_check reference_set =
        words_to_check.map (fun w => (w, calculate_entropy w reference_set))) ∧
    (find_best_guess possible_words all_words excluded_words word_ranks force_possible
        top_candidates_count =
      ((sort_desc (apply_bonuses_to_top_candidates
          ((sort_desc (calculate_word_entropy_scores
            (get_candidate_words possible_words all_words excluded_words force_possible).2
            possible_words)).take
            (min top_candidates_count
              (get_candidate_words possible_words all_words excluded_words
                force_possible).2.length))
          possible_words word_ranks)).head?).map Prod.fst) ∧
    (find_best_guesses possible_words all_words excluded_words word_ranks force_possible =
      (((sort_desc (calculate_word_entropy_scores
          (if excluded_words ≠ [] then
            (if force_possible then possible_words else all_words).filter
              (fun w => w ∉ excluded_words)
           else (if force_possible then possible_words else all_words))
          (solver_frequency_words possible_words word_ranks))).take 5).head?).map
        Prod.fst) := by
  refine ⟨calculate_word_entropy_scores_eq_map, ?_, ?_⟩
  · rw [show find_best_guess possible_words all_words excluded_words word_ranks
        force_possible top_candidates_count =
        match get_candidate_words possible_words all_words excluded_words force_possible with
        | (some best_word, _) => some best_word
        | (none, words_to_check) =>
          ((sort_desc (apply_bonuses_to_top_candidates
            ((sort_desc (calculate_word_entropy_scores words_to_check
              possible_words)).take (min top_candidates_count words_to_check.length))
            possible_words word_ranks)).head?).map Prod.fst from rfl]
    rw [show get_candidate_words possible_words all_words excluded_words force_possible =
        (none, (get_candidate_words possible_words all_words excluded_words
          force_possible).2) from by
      unfold get_candidate_words
      rw [if_neg h1]]
  · unfold find_best_guesses
    rw [if_neg h1]

theorem entropy_pass_reference_sets_witness :
    ([] : List Word).length ≠ 1 ∧
    ((∀ (words_to_check reference_set : List Word),
      calculate_word_entropy_scores words_to_check reference_set =
        words_to_check.map (fun w => (w, calculate_entropy w reference_set))) ∧
     (find_best_guess [] [] [] [] false 0 =
       ((sort_desc (apply_bonuses_to_top_candidates
           ((sort_desc (calculate_word_entropy_scores
             (get_candidate_words [] [] [] false).2 [])).take
             (min 0 (get_candidate_words [] [] [] false).2.length))
           [] [])).head?).map Prod.fst) ∧
     (find_best_guesses [] [] [] [] false =
       (((sort_desc (calculate_word_entropy_scores
           (if ([] : List Word) ≠ [] then
             (if false then ([] : List Word) else []).filter
               (fun w => w ∉ ([] : List Word))
            else (if false then ([] : List Word) else []))
           (solver_frequency_words [] []))).take 5).head?).map Prod.fst)) :=
  ⟨by decide, entropy_pass_reference_sets [] [] [] [] false 0 (by decide)⟩

/-- C3 counterexample: in the solver.py selector, with candidate set
`[abcde, abcdg]` and a ranking containing only `abcde`, the entropy pass's
reference set is `[abcde]` — not the candidate set — and the pool scores
computed against it differ from the scores against the candidate set
(`abcde` scores 0 there instead of 1). -/
theorem solver_reference_set_not_candidates :
    solver_frequency_words [['a','b','c','d','e'], ['a','b','c','d','g']]
        [(['a','b','c','d','e'], 1)] = [['a','b','c','d','e']] ∧
    ([['a','b','c','d','e']] : List Word) ≠ [['a','b','c','d','e'], ['a','b','c','d','g']] ∧
    calculate_entropy ['a','b','c','d','e'] [['a','b','c','d','e']] = 0 ∧
    calculate_entropy ['a','b','c','d','e']
        [['a','b','c','d','e'], ['a','b','c','d','g']] = 1 ∧
    calculate_word_entropy_scores [['a','b','c','d','e'], ['a','b','c','d','g']]
        (solver_frequency_words [['a','b','c','d','e'], ['a','b','c','d','g']]
          [(['a','b','c','d','e'], 1)]) ≠
      calculate_word_entropy_scores [['a','b','c','d','e'], ['a','b','c','d','g']]
        [['a','b','c','d','e'], ['a','b','c','d','g']] := by
  have hfw : solver_frequency_words [['a','b','c','d','e'], ['a','b','c','d','g']]
      [(['a','b','c','d','e'], 1)] = [['a','b','c','d','e']] := by decide
  have h0 : calculate_entropy ['a','b','c','d','e'] [['a','b','c','d','e']] = 0 :=
    entropy_single _ _
  have h1 : calculate_entropy ['a','b','c','d','e']
      [['a','b','c','d','e'], ['a','b','c','d','g']] = 1 :=
    entropy_pair _ _ _ (by decide)
  refine ⟨hfw, by decide, h0, h1, ?_⟩
  rw [hfw, calculate_word_entropy_scores_eq_map, calculate_word_entropy_scores_eq_map]
  simp only [List.map_cons, List.map_nil]
  intro h
  have hpair : (⟨['a','b','c','d','e'],
      calculate_entropy ['a','b','c','d','e'] [['a','b','c','d','e']]⟩ : Word × ℝ) =
      ⟨['a','b','c','d','e'],
        calculate_entropy ['a','b','c','d','e']
          [['a','b','c','d','e'], ['a','b','c','d','g']]⟩ :=
    ((List.cons.injEq _ _ _ _).mp h).1
  have hsnd : calculate_entropy ['a','b','c','d','e'] [['a','b','c','d','e']] =
      calculate_entropy ['a','b','c','d','e']
        [['a','b','c','d','e'], ['a','b','c','d','g']] :=
    congrArg Prod.snd hpair
  rw [h0, h1] at hsnd
  exact absurd hsnd (by norm_num)

lemma apply_bonuses_loop_eq (possible_words : List Word) (word_ranks : List (Word × ℕ))
    (max_rank : ℕ) :
    ∀ (tops acc : List (Word × ℝ)),
    apply_bonuses_loop possible_words word_ranks max_rank acc tops =
      acc ++ tops.map (fun wb =>
        (wb.1, wb.2
          + (if word_ranks ≠ [] ∧ (word_ranks.lookup wb.1).isSome then
              (if possible_words.length ≤ 20 then
                (1 - (((word_ranks.lookup wb.1).getD 0 : ℕ) : ℝ) / (max_rank : ℝ)) * 0.5
               else 0)
             else 0)
          + (if wb.1 ∈ possible_words then wb.2 * 0.01 else 0))) := by
  intro tops
  induction tops with
  | nil => intro acc; simp [apply_bonuses_loop]
  | cons wb rest ih =>
    intro acc
    obtain ⟨word, base⟩ := wb
    simp only [apply_bonuses_loop, List.map_cons]
    rw [ih]
    rw [List.append_assoc, List.singleton_append]
    congr 2
    exact Prod.ext rfl (by split_ifs <;> ring)

/-- The head of the descending stable sort is a maximal-score entry of the
list. -/
lemma sort_desc_head_max (l : List (Word × ℝ)) (p : Word × ℝ)
    (hp : (sort_desc l).head? = some p) :
    p ∈ l ∧ ∀ x ∈ l, x.2 ≤ p.2 := by
  obtain ⟨rest, hrest⟩ := List.head?_eq_some_iff.mp hp
  constructor
  · have hmem : p ∈ sort_desc l := by rw [hrest]; exact List.mem_cons_self _ _
    unfold sort_desc at hmem
    exact List.mem_mergeSort.mp hmem
  · intro x hx
    have hxs : x ∈ sort_desc l := by unfold sort_desc; exact List.mem_mergeSort.mpr hx
    rw [hrest] at hxs
    rcases List.mem_cons.mp hxs with h | h
    · rw [h]
    · have hsorted : List.Pairwise (fun a b => scoreDescBool a b = true) (sort_desc l) := by
        unfold sort_desc
        apply List.sorted_mergeSort
        · intro a b c hab hbc
          simp only [scoreDescBool, decide_eq_true_eq] at hab hbc ⊢
          exact le_trans hbc hab
        · intro a b
          simp only [scoreDescBool, Bool.or_eq_true, decide_eq_true_eq]
          exact le_total b.2 a.2
      rw [hrest] at hsorted
      have hle := (List.pairwise_cons.mp hsorted).1 x h
      simpa [scoreDescBool, decide_eq_true_eq] using hle

/-- C7: the second pass adds to each top-K word's entropy score a frequency
bonus `(1 - rank/max_rank) * 0.5` — only when the word is ranked and at
most 20 candidates remain — plus a tie-break bonus `base * 0.01` when the
word is itself a candidate; the selector then re-sorts by adjusted score
descending and returns the top entry, which carries a maximal adjusted
score. -/
theorem bonus_refinement (top_candidates : List (Word × ℝ))
    (possible_words all_words excluded_words : List Word)
    (word_ranks : List (Word × ℕ)) (force_possible : Bool) (top_candidates_count : ℕ)
    (h1 : possible_words.length ≠ 1) :
    (apply_bonuses_to_top_candidates top_candidates possible_words word_ranks =
      top_candidates.map (fun wb =>
        (wb.1, wb.2
          + (if word_ranks ≠ [] ∧ (word_ranks.lookup wb.1).isSome then
              (if possible_words.length ≤ 20 then
                (1 - (((word_ranks.lookup wb.1).getD 0 : ℕ) : ℝ) /
                  ((max_rank_of word_ranks : ℕ) : ℝ)) * 0.5
               else 0)
             else 0)
          + (if wb.1 ∈ possible_words then wb.2 * 0.01 else 0)))) ∧
    (find_best_guess possible_words all_words excluded_words word_ranks force_possible
        top_candidates_count =
      ((sort_desc (apply_bonuses_to_top_candidates
          ((sort_desc (calculate_word_entropy_scores
            (get_candidate_words possible_words all_words excluded_words force_possible).2
            possible_words)).take
            (min top_candidates_count
              (get_candidate_words possible_words all_words excluded_words
                force_possible).2.length))
          possible_words word_ranks)).head?).map Prod.fst) ∧
    (∀ (l : List (Word × ℝ)) (p : Word × ℝ),
      (sort_desc l).head? = some p → p ∈ l ∧ ∀ x ∈ l, x.2 ≤ p.2) := by
  refine ⟨apply_bonuses_loop_eq possible_words word_ranks (max_rank_of word_ranks)
    top_candidates [], ?_, sort_desc_head_max⟩
  rw [show find_best_guess possible_words all_words excluded_words word_ranks
      force_possible top_candidates_count =
      match get_candidate_words possible_words all_words excluded_words force_possible with
      | (some best_word, _) => some best_word
      | (none, words_to_check) =>
        ((sort_desc (apply_bonuses_to_top_candidates
          ((sort_desc (calculate_word_entropy_scores words_to_check
            possible_words)).take (min top_candidates_count words_to_check.length))
          possible_words word_ranks)).head?).map Prod.fst from rfl]
  rw [show get_candidate_words possible_words all_words excluded_words force_possible =
      (none, (get_candidate_words possible_words all_words excluded_words
        force_possible).2) from by
    unfold get_candidate_words
    rw [if_neg h1]]

theorem bonus_refinement_witness :
    ([] : List Word).length ≠ 1 ∧
    ((apply_bonuses_to_top_candidates [] [] [] =
      ([] : List (Word × ℝ)).map (fun wb =>
        (wb.1, wb.2
          + (if ([] : List (Word × ℕ)) ≠ [] ∧ (([] : List (Word × ℕ)).lookup wb.1).isSome
             then
              (if ([] : List Word).length ≤ 20 then
                (1 - ((((([] : List (Word × ℕ))).lookup wb.1).getD 0 : ℕ) : ℝ) /
                  ((max_rank_of [] : ℕ) : ℝ)) * 0.5
               else 0)
             else 0)
          + (if wb.1 ∈ ([] : List Word) then wb.2 * 0.01 else 0)))) ∧
     (find_best_guess [] [] [] [] false 0 =
       ((sort_desc (apply_bonuses_to_top_candidates
           ((sort_desc (calculate_word_entropy_scores
             (get_candidate_words [] [] [] false).2 [])).take
             (min 0 (get_candidate_words [] [] [] false).2.length))
           [] [])).head?).map Prod.fst) ∧
     (∀ (l : List (Word × ℝ)) (p : Word × ℝ),
       (sort_desc l).head? = some p → p ∈ l ∧ ∀ x ∈ l, x.2 ≤ p.2)) :=
  ⟨by decide, bonus_refinement [] [] [] [] [] false 0 (by decide)⟩

/-- C4 counterexample: a feedback code that empties the filtered candidate
set is reverted, but the rejected pattern stays recorded in
`pattern_history` — the recorded patterns are not left exactly as they
were. -/
theorem empty_filter_keeps_pattern_history :
    validPattern ['g','g','g','g','r'] ∧
    (['g','g','g','g','r'] : Pattern) ≠ ['g','g','g','g','g'] ∧
    filter_words ['z','z','z','z','f'] ['g','g','g','g','r']
      (initState [['a','b','c','d','e']]).possible_words = [] ∧
    (loop_step (initState [['a','b','c','d','e']]) ['z','z','z','z','f']
        (.pattern ['g','g','g','g','r'])).pattern_history
      ≠ (initState [['a','b','c','d','e']]).pattern_history := by
  refine ⟨by decide, by decide, by decide, by decide⟩

/-- C4 (amended): when a valid non-winning feedback code yields an empty
filtered candidate set, the commit is rejected with a re-prompt and the
candidate set, guess history, snapshot history, skipped set and turn
counter are restored exactly — but the rejected pattern remains appended to
`pattern_history` (the source never pops it). -/
theorem empty_filter_reverts (st : SessionState) (guess : Word) (p : Pattern)
    (hng : p ≠ ['g','g','g','g','g']) (hv : validPattern p)
    (hempty : filter_words guess p st.possible_words = []) :
    (loop_step st guess (.pattern p)).possible_words = st.possible_words ∧
    (loop_step st guess (.pattern p)).guess_history = st.guess_history ∧
    (loop_step st guess (.pattern p)).possible_words_history =
      st.possible_words_history ∧
    (loop_step st guess (.pattern p)).skipped_words = st.skipped_words ∧
    (loop_step st guess (.pattern p)).guess_count = st.guess_count ∧
    (loop_step st guess (.pattern p)).solved = st.solved ∧
    (loop_step st guess (.pattern p)).notice = Notice.noMatching ∧
    (loop_step st guess (.pattern p)).pattern_history = st.pattern_history ++ [p] := by
  simp only [loop_step]
  rw [if_neg hng, if_neg (not_not_intro hv)]
  simp [hempty, List.dropLast_concat]

theorem empty_filter_reverts_witness :
    (['g','g','g','g','r'] : Pattern) ≠ ['g','g','g','g','g'] ∧
    validPattern ['g','g','g','g','r'] ∧
    filter_words ['z','z','z','z','f'] ['g','g','g','g','r']
      (initState [['a','b','c','d','e']]).possible_words = [] ∧
    ((loop_step (initState [['a','b','c','d','e']]) ['z','z','z','z','f']
        (.pattern ['g','g','g','g','r'])).possible_words
      = (initState [['a','b','c','d','e']]).possible_words ∧
     (loop_step (initState [['a','b','c','d','e']]) ['z','z','z','z','f']
        (.pattern ['g','g','g','g','r'])).guess_history
      = (initState [['a','b','c','d','e']]).guess_history ∧
     (loop_step (initState [['a','b','c','d','e']]) ['z','z','z','z','f']
        (.pattern ['g','g','g','g','r'])).possible_words_history
      = (initState [['a','b','c','d','e']]).possible_words_history ∧
     (loop_step (initState [['a','b','c','d','e']]) ['z','z','z','z','f']
        (.pattern ['g','g','g','g','r'])).skipped_words
      = (initState [['a','b','c','d','e']]).skipped_words ∧
     (loop_step (initState [['a','b','c','d','e']]) ['z','z','z','z','f']
        (.pattern ['g','g','g','g','r'])).guess_count
      = (initState [['a','b','c','d','e']]).guess_count ∧
     (loop_step (initState [['a','b','c','d','e']]) ['z','z','z','z','f']
        (.pattern ['g','g','g','g','r'])).solved
      = (initState [['a','b','c','d','e']]).solved ∧
     (loop_step (initState [['a','b','c','d','e']]) ['z','z','z','z','f']
        (.pattern ['g','g','g','g','r'])).notice = Notice.noMatching ∧
     (loop_step (initState [['a','b','c','d','e']]) ['z','z','z','z','f']
        (.pattern ['g','g','g','g','r'])).pattern_history
      = (initState [['a','b','c','d','e']]).pattern_history ++ [['g','g','g','g','r']]) :=
  ⟨by decide, by decide, by decide,
    empty_filter_reverts (initState [['a','b','c','d','e']]) ['z','z','z','z','f']
      ['g','g','g','g','r'] (by decide) (by decide) (by decide)⟩

/-- C5 counterexample: a word that is in the skipped set is still returned
as the recommendation by the main loop's selection block when it is the
sole remaining candidate (the single-possibility branch consults neither
the skipped set nor the selector). -/
theorem skipped_sole_candidate_recommended :
    select_guess [['c','r','a','n','e']] [] [['c','r','a','n','e']] [] 3
        ['s','l','a','t','e'] false = some ['c','r','a','n','e'] ∧
    (['c','r','a','n','e'] : Word) ∈ [['c','r','a','n','e']] := by
  constructor
  · simp [select_guess]
  · simp

/-- C5 (amended): a skipped word is added to the skipped set, which only
ever grows during the session (so it persists across undos), and skipped
words are excluded from the scored candidate pool of `find_best_guess` —
but the sole-remaining-candidate shortcut (and the turn-1 opening pick)
bypass the skipped set, so a skipped word can still be recommended. -/
theorem skip_exclusion (st : SessionState) (guess : Word) (input : Input)
    (possible_words all_words excluded_words : List Word) (force_possible : Bool)
    (w : Word) :
    (st.skipped_words ⊆ (loop_step st guess input).skipped_words) ∧
    (guess ∈ (loop_step st guess Input.skip).skipped_words) ∧
    (w ∈ excluded_words →
      w ∉ (get_candidate_words possible_words all_words excluded_words
        force_possible).2) := by
  refine ⟨?_, ?_, ?_⟩
  · cases input with
    | undo =>
      simp only [loop_step]
      split <;> exact List.Subset.refl _
    | skip =>
      simp only [loop_step, addSkip]
      split
      · exact List.Subset.refl _
      · exact List.subset_append_left _ _
    | pattern p =>
      simp only [loop_step]
      split
      · exact List.Subset.refl _
      · split
        · exact List.Subset.refl _
        · split <;> exact List.Subset.refl _
  · simp only [loop_step, addSkip]
    split
    · assumption
    · simp
  · intro hw
    unfold get_candidate_words
    split
    · simp
    · have hne : excluded_words ≠ [] := List.ne_nil_of_mem hw
      dsimp only
      rw [if_pos hne]
      intro hmem
      rcases List.mem_filter.mp hmem with ⟨-, hdec⟩
      rw [decide_eq_true_eq] at hdec
      exact hdec hw

theorem skip_exclusion_witness :
    (['c','r','a','n','e'] : Word) ∈ [['c','r','a','n','e']] ∧
    (((initState []).skipped_words ⊆
        (loop_step (initState []) ['c','r','a','n','e'] Input.skip).skipped_words) ∧
     (['c','r','a','n','e'] ∈
        (loop_step (initState []) ['c','r','a','n','e'] Input.skip).skipped_words) ∧
     (['c','r','a','n','e'] ∈ [['c','r','a','n','e']] →
        ['c','r','a','n','e'] ∉ (get_candidate_words [['s','l','a','t','e'],
          ['c','r','a','n','e']] [] [['c','r','a','n','e']] false).2)) :=
  ⟨by decide,
    skip_exclusion (initState []) ['c','r','a','n','e'] Input.skip
      [['s','l','a','t','e'], ['c','r','a','n','e']] [] [['c','r','a','n','e']] false
      ['c','r','a','n','e']⟩

/-- C6 (code evaluation at the failing input): after committing two guesses
and undoing twice, the second undo still reports a successful undo and
leaves the candidate set filtered by the first guess instead of restoring
the initial set; and from a fresh session two consecutive undos make the
second one report a successful undo with the turn counter driven to -1
instead of reporting "nothing to undo" and changing nothing.  The undo
handler pops only the pending history entry, leaving the undone guess's
stale entries behind. -/
theorem consecutive_undo_desync :
    ((loop_step (loop_step (initState [['a','b','c','d','e'], ['a','b','c','d','f'],
        ['a','b','c','d','g']]) ['z','z','z','z','f']
        (.pattern ['r','r','r','r','r'])) ['z','z','z','z','f'] .undo).possible_words
      = [['a','b','c','d','e'], ['a','b','c','d','f'], ['a','b','c','d','g']]) ∧
    ((loop_step (loop_step (loop_step (loop_step
        (initState [['a','b','c','d','e'], ['a','b','c','d','f'], ['a','b','c','d','g']])
        ['z','z','z','z','f'] (.pattern ['r','r','r','r','r']))
        ['z','z','z','z','g'] (.pattern ['r','r','r','r','r']))
        ['z','z','z','z','f'] .undo)
        ['z','z','z','z','f'] .undo).possible_words
      = [['a','b','c','d','e'], ['a','b','c','d','g']]) ∧
    ((loop_step (loop_step (loop_step (loop_step
        (initState [['a','b','c','d','e'], ['a','b','c','d','f'], ['a','b','c','d','g']])
        ['z','z','z','z','f'] (.pattern ['r','r','r','r','r']))
        ['z','z','z','z','g'] (.pattern ['r','r','r','r','r']))
        ['z','z','z','z','f'] .undo)
        ['z','z','z','z','f'] .undo).notice = Notice.undidLast) ∧
    ((loop_step (loop_step (initState [['a','b','c','d','e']]) ['z','z','z','z','f']
        .undo) ['z','z','z','z','f'] .undo).notice = Notice.undidLast) ∧
    ((loop_step (loop_step (initState [['a','b','c','d','e']]) ['z','z','z','z','f']
        .undo) ['z','z','z','z','f'] .undo).guess_count = -1) := by
  refine ⟨by decide, by decide, by decide, by decide, by decide⟩

end WordleSolver
